import Mathlib

/-!
Shallow embedding of the serp benchmarking core: the statistics aggregator
(`scripts/bench-aggregate.mjs`), the scheduler/summary code (`src/bench.ts`),
and the decision engine, together with theorems checking the repository's
specification against this embedding.

Modelling conventions:
* JavaScript numbers are modelled as rationals (`ℚ`); a possibly-`null` or
  possibly-non-finite number is `Option ℚ` with `none` standing for
  `null` / `NaN` / `±Infinity` ("unknown" in the spec's vocabulary).
* JavaScript truthiness on numbers (`x && y`, `x ? a : b`, `!q`) is modelled
  explicitly: a number is falsy exactly when it is `0` (the `NaN` case is
  covered by `none`), a string is falsy exactly when it is `""`.
* JavaScript objects used as string-keyed dictionaries are modelled as
  association lists in key-insertion order (`jsSet` / `jsGet` below), which
  matches the enumeration order of `Object.keys` for such objects.
* `JSON.parse` and the filesystem are external collaborators; ingestion is
  parameterised by the outcome of parsing (see `BenchFile`).
-/

/-- Canonical normalized per-attempt event as produced by the aggregator's
ingestion (`unifyFromResultsJson` / `unifyFromNdjsonFile` in
`scripts/bench-aggregate.mjs`).  Only the fields the aggregator reads are
carried. -/
structure Event where
  vendor : String
  ok : Bool
  blocked : Bool
  captcha : Bool
  ts : ℚ
  conc : Option ℤ
  dns : Option ℚ
  connect : Option ℚ
  tls : Option ℚ
  ttfb : Option ℚ
  total : Option ℚ
  query : Option String
  topk : List String
  sessionId : Option String
  ip : Option String
  deriving DecidableEq, Repr

/-- A default event record used to build concrete test inputs concisely. -/
def mkEvent (vendor : String) : Event :=
  { vendor := vendor, ok := true, blocked := false, captcha := false,
    ts := 0, conc := none, dns := none, connect := none, tls := none,
    ttfb := none, total := none, query := none, topk := [],
    sessionId := none, ip := none }

/-- Nearest-rank percentile, translated from `percentile` in
`scripts/bench-aggregate.mjs` (lines 44-49; the copy in `src/bench.ts` lines
163-168 is identical): filter finite values, sort ascending, return the
element at index `ceil(p/100*n) - 1` clamped into `[0, n-1]`, or `null`
when no finite value remains. -/
def percentile (nums : List (Option ℚ)) (p : ℚ) : Option ℚ :=
  let xs := (nums.filterMap id).insertionSort (· ≤ ·)
  if xs.length = 0 then none
  else
    let n : ℤ := xs.length
    let idx : ℤ := ⌈p / 100 * n⌉ - 1
    xs[(min (max idx 0) (n - 1)).toNat]?

/-- Top-K Jaccard similarity, translated from `jaccard` in
`scripts/bench-aggregate.mjs` (lines 51-57): take the first `k` entries of
each list, deduplicate (JS `Set`), and return `|A ∩ B| / |A ∪ B|`, or `null`
when the union is empty. -/
def jaccard (a b : List String) (k : Nat) : Option ℚ :=
  let A := (a.take k).dedup
  let B := (b.take k).dedup
  let inter := A.filter (fun x => x ∈ B)
  let union := (A ++ B).dedup
  if union.length ≠ 0 then some ((inter.length : ℚ) / (union.length : ℚ)) else none

/-- Tail amplification, translated from `tailAmp` in
`scripts/bench-aggregate.mjs` (lines 190-195): `p99/p50` of the `total`
field, `null` unless both percentiles are truthy (non-`null` and nonzero). -/
def tailAmp (xs : List Event) : Option ℚ :=
  let v := xs.map (·.total)
  let p50 := percentile v 50
  let p99 := percentile v 99
  match p50, p99 with
  | some a, some b => if a ≠ 0 ∧ b ≠ 0 then some (b / a) else none
  | _, _ => none

/-- Successful events only (`pickSuccesses` in `scripts/bench-aggregate.mjs`). -/
def pickSuccesses (arr : List Event) : List Event := arr.filter (·.ok)

/-- One percentile of one stage field over an event list, as computed by
`pstats(xs, field).pXX` in `scripts/bench-aggregate.mjs` (lines 180-188);
the extra finiteness filter there is subsumed by `percentile`'s own filter. -/
def pstat (xs : List Event) (f : Event → Option ℚ) (p : ℚ) : Option ℚ :=
  percentile (xs.map f) p

/-- Output record of `stageOverheads`. -/
structure StageOut where
  dnsP95Direct : Option ℚ
  dnsP95Proxy : Option ℚ
  tcpP95Direct : Option ℚ
  tcpP95Proxy : Option ℚ
  tlsP95Direct : Option ℚ
  tlsP95Proxy : Option ℚ
  ttfbP95Direct : Option ℚ
  ttfbP95Proxy : Option ℚ
  preOriginOverheadMs : Option ℚ
  ttfbOverheadMs : Option ℚ
  deriving DecidableEq, Repr

/-- Per-stage p95 comparison, translated from `stageOverheads` in
`scripts/bench-aggregate.mjs` (lines 218-254).  When either side has no
successful event the proxy-side p95s and both overhead values are `null`;
otherwise the pre-origin sums substitute `0` for a stage p95 that is not
finite (`Number.isFinite(x) ? x : 0`), and the TTFB overhead is `null`
unless both TTFB p95s are finite. -/
def stageOverheads (vDirect vProxy : List Event) : StageOut :=
  let sD := pickSuccesses vDirect
  let sP := pickSuccesses vProxy
  let haveD := sD.length > 0
  let haveP := sP.length > 0
  if ¬haveD ∨ ¬haveP then
    { dnsP95Direct := if haveD then pstat sD (·.dns) 95 else none
      dnsP95Proxy := none
      tcpP95Direct := if haveD then pstat sD (·.connect) 95 else none
      tcpP95Proxy := none
      tlsP95Direct := if haveD then pstat sD (·.tls) 95 else none
      tlsP95Proxy := none
      ttfbP95Direct := if haveD then pstat sD (·.ttfb) 95 else none
      ttfbP95Proxy := none
      preOriginOverheadMs := none
      ttfbOverheadMs := none }
  else
    let p95DnsD := pstat sD (·.dns) 95
    let p95ConD := pstat sD (·.connect) 95
    let p95TlsD := pstat sD (·.tls) 95
    let p95DnsP := pstat sP (·.dns) 95
    let p95ConP := pstat sP (·.connect) 95
    let p95TlsP := pstat sP (·.tls) 95
    let preOriginDirect := p95DnsD.getD 0 + p95ConD.getD 0 + p95TlsD.getD 0
    let preOriginProxy := p95DnsP.getD 0 + p95ConP.getD 0 + p95TlsP.getD 0
    let preOriginOverhead := preOriginProxy - preOriginDirect
    let ttfbD := pstat sD (·.ttfb) 95
    let ttfbP := pstat sP (·.ttfb) 95
    let ttfbOverhead : Option ℚ :=
      match ttfbP, ttfbD with
      | some xP, some xD => some (xP - xD)
      | _, _ => none
    { dnsP95Direct := p95DnsD
      dnsP95Proxy := p95DnsP
      tcpP95Direct := p95ConD
      tcpP95Proxy := p95ConP
      tlsP95Direct := p95TlsD
      tlsP95Proxy := p95TlsP
      ttfbP95Direct := ttfbD
      ttfbP95Proxy := ttfbP
      preOriginOverheadMs := some preOriginOverhead
      ttfbOverheadMs := ttfbOverhead }

/-- JS numeric truthiness on a nullable number: `x || null` maps `0` (and
`null`) to `null` and keeps any other value. -/
def orNull (o : Option ℚ) : Option ℚ :=
  match o with
  | some x => if x = 0 then none else some x
  | none => none

/-- Output record of `speedDeltas`. -/
structure Speeds where
  directP50 : Option ℚ
  directP90 : Option ℚ
  directP95 : Option ℚ
  directP99 : Option ℚ
  proxyP50 : Option ℚ
  proxyP90 : Option ℚ
  proxyP95 : Option ℚ
  proxyP99 : Option ℚ
  ttfbP95Direct : Option ℚ
  ttfbP95Proxy : Option ℚ
  overheadP50Ms : Option ℚ
  overheadP95RatioToBaseline : Option ℚ
  ttfbP95OverheadMs : Option ℚ
  tailAmpDirect : Option ℚ
  tailAmpProxy : Option ℚ
  deriving DecidableEq, Repr

/-- Speed comparison, translated from `speedDeltas` in
`scripts/bench-aggregate.mjs` (lines 256-286).  The p95 ratio additionally
requires the baseline p95 to be strictly positive; the raw percentile
outputs go through JS `x || null` truthiness (`orNull`). -/
def speedDeltas (vDirect vProxy : List Event) : Speeds :=
  let sD := pickSuccesses vDirect
  let sP := pickSuccesses vProxy
  let p50D := pstat sD (·.total) 50
  let p95D := pstat sD (·.total) 95
  let p50P := pstat sP (·.total) 50
  let p95P := pstat sP (·.total) 95
  let ratio95 : Option ℚ :=
    match p95P, p95D with
    | some xP, some xD => if xD > 0 then some (xP / xD) else none
    | _, _ => none
  let delta50 : Option ℚ :=
    match p50P, p50D with
    | some xP, some xD => some (xP - xD)
    | _, _ => none
  let ttfb95D := pstat sD (·.ttfb) 95
  let ttfb95P := pstat sP (·.ttfb) 95
  let ttfbOver : Option ℚ :=
    match ttfb95P, ttfb95D with
    | some xP, some xD => some (xP - xD)
    | _, _ => none
  { directP50 := orNull p50D
    directP90 := orNull (pstat sD (·.total) 90)
    directP95 := orNull p95D
    directP99 := orNull (pstat sD (·.total) 99)
    proxyP50 := orNull p50P
    proxyP90 := orNull (pstat sP (·.total) 90)
    proxyP95 := orNull p95P
    proxyP99 := orNull (pstat sP (·.total) 99)
    ttfbP95Direct := orNull ttfb95D
    ttfbP95Proxy := orNull ttfb95P
    overheadP50Ms := delta50
    overheadP95RatioToBaseline := ratio95
    ttfbP95OverheadMs := ttfbOver
    tailAmpDirect := tailAmp sD
    tailAmpProxy := tailAmp sP }

/-- JS object assignment `obj[k] = v` on a string-keyed dictionary modelled
as an association list in key-insertion order: an existing key is updated in
place, a new key is appended at the end. -/
def jsSet {α : Type} : List (String × α) → String → α → List (String × α)
  | [], k, v => [(k, v)]
  | (k', v') :: rest, k, v =>
    if k' = k then (k', v) :: rest else (k', v') :: jsSet rest k v

/-- JS object lookup `obj[k]` on the same dictionary model. -/
def jsGet {α : Type} : List (String × α) → String → Option α
  | [], _ => none
  | (k', v) :: rest, k => if k' = k then some v else jsGet rest k

/-- Grouping of events by vendor, translated from `groupByVendor` in
`scripts/bench-aggregate.mjs` (lines 172-176): `(by[e.vendor] ||= []).push(e)`. -/
def groupByVendor (events : List Event) : List (String × List Event) :=
  events.foldl (fun m e => jsSet m e.vendor ((jsGet m e.vendor).getD [] ++ [e])) []

/-- One step of building the vendor-by-query table of `correctnessJaccard`:
`const q = e.query; if (!q) continue; (byVQ[e.vendor] ||= {})[q] = e;`.
A `null` or empty-string query is skipped (JS string truthiness); otherwise
the event overwrites any earlier event with the same vendor and query. -/
def byVQinsert (m : List (String × List (String × Event))) (e : Event) :
    List (String × List (String × Event)) :=
  match e.query with
  | none => m
  | some q =>
    if q = "" then m
    else jsSet m e.vendor (jsSet ((jsGet m e.vendor).getD []) q e)

/-- The vendor-by-query table of `correctnessJaccard` (lines 308-313 of
`scripts/bench-aggregate.mjs`). -/
def buildByVQ (arr : List Event) : List (String × List (String × Event)) :=
  arr.foldl byVQinsert []

/-- The per-query score of `correctnessJaccard`'s inner loop (lines 321-325):
Jaccard of the baseline's and the vendor's stored `topk` lists for query `q`,
with `(x?.topk) || []` defaulting a missing entry to the empty list. -/
def corrScore (byVQ : List (String × List (String × Event)))
    (baseV v : String) (k : Nat) (q : String) : Option ℚ :=
  let a := ((jsGet ((jsGet byVQ baseV).getD []) q).map (·.topk)).getD []
  let b := ((jsGet ((jsGet byVQ v).getD []) q).map (·.topk)).getD []
  jaccard a b k

/-- Per-vendor correctness entry: average Jaccard and pair count. -/
structure CorrEntry where
  avg : Option ℚ
  count : Nat
  deriving DecidableEq, Repr

/-- Output of `correctnessJaccard`. -/
structure CorrOut where
  baseline : String
  vendors : List (String × CorrEntry)
  deriving DecidableEq, Repr

/-- The list of queries shared between vendor `v`'s and the baseline's
tables (`Object.keys(byVQ[v]).filter(q => byVQ[baselineVendor][q])`). -/
def commonQs (byVQ : List (String × List (String × Event))) (baseV v : String) :
    List String :=
  (((jsGet byVQ v).getD []).map Prod.fst).filter
    (fun q => (jsGet ((jsGet byVQ baseV).getD []) q).isSome)

/-- The baseline resolution of `correctnessJaccard` (line 315):
`if (!vendors.includes(baselineVendor) && vendors.length) baselineVendor = vendors[0]`. -/
def resolvedBaseline (arr : List Event) (baselineVendor : String) : String :=
  match (buildByVQ arr).map Prod.fst with
  | [] => baselineVendor
  | v0 :: _ =>
    if baselineVendor ∈ (buildByVQ arr).map Prod.fst then baselineVendor else v0

/-- The score list of `correctnessJaccard`'s inner loop for one vendor:
Jaccard over the shared queries, dropping `null` scores (`if (s != null)
scores.push(s)`). -/
def corrScoresFor (arr : List Event) (baseV v : String) (k : Nat) : List ℚ :=
  (commonQs (buildByVQ arr) baseV v).filterMap (corrScore (buildByVQ arr) baseV v k)

/-- Correctness scoring, translated from `correctnessJaccard` in
`scripts/bench-aggregate.mjs` (lines 307-334).  Events with a falsy query
are ignored; the last event per (vendor, query) wins; if the given baseline
vendor is absent and some vendor exists, the first vendor key becomes the
baseline; each non-baseline vendor is scored over the shared queries,
dropping `null` Jaccard scores; the baseline gets `avg = 1`. -/
def correctnessJaccard (arr : List Event) (baselineVendor : String) (k : Nat) :
    CorrOut :=
  let byVQ := buildByVQ arr
  let vendors := byVQ.map Prod.fst
  let baseV := resolvedBaseline arr baselineVendor
  let scored : List (String × CorrEntry) :=
    (vendors.filter (· ≠ baseV)).map (fun v =>
      let scores := corrScoresFor arr baseV v k
      (v, { avg := if scores.length ≠ 0 then some (scores.sum / scores.length) else none
            count := scores.length }))
  { baseline := baseV
    vendors := jsSet scored baseV
        { avg := some 1, count := ((jsGet byVQ baseV).getD []).length } }

/-- Inputs of `decidePassFail` taken from the metrics object
(`{ ...speeds, reliability }` in `main`). -/
structure DecideMetrics where
  overheadP95RatioToBaseline : Option ℚ
  successRate : Option ℚ
  captchaRate : Option ℚ
  tailAmpDirect : Option ℚ
  tailAmpProxy : Option ℚ
  deriving DecidableEq, Repr

/-- Decision output: verdict plus observed values. -/
structure Decision where
  pass : Bool
  observedRatio : Option ℚ
  observedSuccessRate : Option ℚ
  observedCaptchaRate : Option ℚ
  observedStickyP50 : Option ℚ
  observedTailAmpRatioToDirect : Option ℚ
  observedTopKJaccard : Option ℚ
  deriving DecidableEq, Repr

/-- The JS idiom `(x != null ? cond(x) : true)`: a criterion is taken as
satisfied whenever its metric is `null`. -/
def optCheck (m : Option ℚ) (cond : ℚ → Bool) : Bool :=
  match m with
  | none => true
  | some x => cond x

/-- The tail ratio of `decidePassFail`:
`(tailDirect && tailProxy) ? (tailProxy / tailDirect) : null`, where JS
truthiness makes the ratio `null` when either side is `null` or zero. -/
def tailRatioCode (tailDirect tailProxy : Option ℚ) : Option ℚ :=
  match tailDirect, tailProxy with
  | some d, some p => if d ≠ 0 ∧ p ≠ 0 then some (p / d) else none
  | _, _ => none

/-- Decision engine, translated from `decidePassFail` in
`scripts/bench-aggregate.mjs` (lines 388-424).  The tail ratio
`tailProxy / tailDirect` is computed only when both tail amplifications are
truthy (non-`null` and nonzero); each of the six thresholds is applied only
when its metric is non-`null`. -/
def decidePassFail (metrics : DecideMetrics)
    (corrAvg stickyP50 : Option ℚ) : Decision :=
  let ratio := metrics.overheadP95RatioToBaseline
  let succ := metrics.successRate
  let captcha := metrics.captchaRate
  let tailOk : Option ℚ := tailRatioCode metrics.tailAmpDirect metrics.tailAmpProxy
  let pass :=
    optCheck ratio (fun x => x ≤ 13/10) &&
    optCheck succ (fun x => x ≥ 49/50) &&
    optCheck captcha (fun x => x ≤ 1/100) &&
    optCheck stickyP50 (fun x => x ≥ 10) &&
    optCheck tailOk (fun x => x ≤ 6/5) &&
    optCheck corrAvg (fun x => x ≥ 9/10)
  { pass := pass
    observedRatio := ratio
    observedSuccessRate := succ
    observedCaptchaRate := captcha
    observedStickyP50 := stickyP50
    observedTailAmpRatioToDirect := tailOk
    observedTopKJaccard := corrAvg }

/-- The effective baseline name selected in `main` of
`scripts/bench-aggregate.mjs` (line 456):
`vendors.includes(args.baseline) ? args.baseline : 'direct'`. -/
def aggDirectName (events : List Event) (baseline : String) : String :=
  if baseline ∈ (groupByVendor events).map Prod.fst then baseline else "direct"

/-- The speed metrics `main` computes for one vendor against the selected
baseline (`speedDeltas(vD, vP)` with `vD = byVendor[directName] || []`). -/
def aggSpeeds (events : List Event) (baseline vendor : String) : Speeds :=
  let byVendor := groupByVendor events
  speedDeltas ((jsGet byVendor (aggDirectName events baseline)).getD [])
    ((jsGet byVendor vendor).getD [])

/-- Streaming-format ingestion, translated from `unifyFromNdjsonFile` in
`scripts/bench-aggregate.mjs` (lines 97-134).  `JSON.parse` composed with
the per-record field normalisation is the external collaborator
`parseLine : String → Option Event` (`none` models a thrown parse error,
which the `try { ... } catch {}` of the source silently skips); a line that
trims to the empty string is skipped by `if (!s) continue`. -/
def unifyFromNdjsonFile (parseLine : String → Option Event)
    (lines : List String) : List Event :=
  lines.filterMap (fun line =>
    let s := line.trim
    if s = "" then none else parseLine s)

/-- One input file of `loadAll`, already classified by the path-based
dispatch of lines 139-165 (path handling and the filesystem are external):
either a batch `results.json` document, carried as the outcome of parsing
and normalising it (`none` models a `JSON.parse` failure), or a streaming
NDJSON file carried as its lines. -/
inductive BenchFile where
  | results (parsed : Option (List Event))
  | ndjson (lines : List String)

/-- Ingestion across files before the final timestamp sort, translated from
the loop of `loadAll` in `scripts/bench-aggregate.mjs` (lines 136-166): a
batch file that fails to parse contributes no events and one reported error
(`console.error`), after which the loop continues with the next file. -/
def loadAllRaw (parseLine : String → Option Event) :
    List BenchFile → List Event × Nat
  | [] => ([], 0)
  | f :: fs =>
    let rest := loadAllRaw parseLine fs
    match f with
    | .results none => (rest.1, rest.2 + 1)
    | .results (some evs) => (evs ++ rest.1, rest.2)
    | .ndjson lines => (unifyFromNdjsonFile parseLine lines ++ rest.1, rest.2)

/-- Full `loadAll` (lines 136-170): ingest every file, then sort the events
by timestamp ascending (a stable sort, as JS `Array.prototype.sort` is). -/
def loadAll (parseLine : String → Option Event) (files : List BenchFile) :
    List Event × Nat :=
  let raw := loadAllRaw parseLine files
  ((raw.1.insertionSort (fun a b => a.ts ≤ b.ts)), raw.2)

/-- One intended probe iteration of a scheduler worker: the wall-clock value
the worker would observe at the loop head (`Date.now()`), the wall-clock
value at which the probe would complete, and the event the probe would
produce (`runOne` never throws — it converts failures into events, and the
worker's own `catch` also produces an event). -/
structure ProbeRun where
  startClock : ℚ
  finishClock : ℚ
  event : Event
  deriving DecidableEq, Repr

/-- The worker loop of `main` in `src/bench.ts` (lines 353-370), modelled as a
function of the sequence of probe iterations available to the worker:
`while (Date.now() < deadline) { pick a query; await the probe; push the
event; }`.  The deadline is consulted only at the loop head; once an
iteration starts, its event is pushed unconditionally. -/
def workerLoop (deadline : ℚ) : List ProbeRun → List Event
  | [] => []
  | r :: rest =>
    if r.startClock < deadline then r.event :: workerLoop deadline rest
    else []

/-- The sorted list of finite input values (the `xs` of `percentile`). -/
def sortedFin (nums : List (Option ℚ)) : List ℚ :=
  (nums.filterMap id).insertionSort (· ≤ ·)

/-- The nearest-rank index of §4.3 of the spec: `ceil(p/100 * n) - 1`
clamped to `[0, n-1]`, as a natural number. -/
def rankIdx (p : ℚ) (n : Nat) : Nat :=
  min ((⌈p / 100 * (n : ℚ)⌉ - 1).toNat) (n - 1)

/-- Percentile as worded by the specification (§4.3): sort finite values
ascending, take the element at index `ceil(p/100 * n) − 1` clamped to
`[0, n−1]`; with zero finite values the percentile is undefined. -/
def percentileSpec (nums : List (Option ℚ)) (p : ℚ) : Option ℚ :=
  let xs := sortedFin nums
  if h : xs.length = 0 then none
  else
    some (xs.get ⟨rankIdx p xs.length,
      lt_of_le_of_lt (Nat.min_le_right _ _)
        (Nat.sub_lt (Nat.pos_of_ne_zero h) Nat.one_pos)⟩)

theorem int_clamp_toNat (a : ℤ) (n : ℕ) (hn : 1 ≤ n) :
    (min (max (a - 1) 0) ((n : ℤ) - 1)).toNat = min ((a - 1).toNat) (n - 1) := by
  omega

/-- The source `percentile` agrees with the spec's wording everywhere. -/
theorem percentile_eq_percentileSpec (nums : List (Option ℚ)) (p : ℚ) :
    percentile nums p = percentileSpec nums p := by
  unfold percentile percentileSpec rankIdx sortedFin
  by_cases h : ((nums.filterMap id).insertionSort (· ≤ ·)).length = 0
  · rw [if_pos h, dif_pos h]
  · have hn : 1 ≤ ((nums.filterMap id).insertionSort (· ≤ ·)).length :=
      Nat.one_le_iff_ne_zero.mpr h
    have hcast : ((((nums.filterMap id).insertionSort (· ≤ ·)).length : ℤ) : ℚ)
        = ((((nums.filterMap id).insertionSort (· ≤ ·)).length : ℕ) : ℚ) := by
      push_cast; ring
    rw [if_neg h, dif_neg h]
    dsimp only
    rw [hcast, int_clamp_toNat _ _ hn]
    rw [List.getElem?_eq_getElem (lt_of_le_of_lt (Nat.min_le_right _ _)
      (Nat.sub_lt (Nat.pos_of_ne_zero h) Nat.one_pos))]
    simp [List.get_eq_getElem]

theorem rankIdx_mono {p q : ℚ} (hpq : p ≤ q) (n : ℕ) : rankIdx p n ≤ rankIdx q n := by
  unfold rankIdx
  have hc : ⌈p / 100 * (n : ℚ)⌉ ≤ ⌈q / 100 * (n : ℚ)⌉ := by
    apply Int.ceil_mono
    have h1 : p / 100 ≤ q / 100 := by linarith
    exact mul_le_mul_of_nonneg_right h1 (Nat.cast_nonneg n)
  omega

theorem sortedFin_sorted (nums : List (Option ℚ)) :
    (sortedFin nums).Sorted (· ≤ ·) :=
  List.sorted_insertionSort _ _

theorem sortedFin_ne_nil {nums : List (Option ℚ)} {x : ℚ} (hx : some x ∈ nums) :
    (sortedFin nums).length ≠ 0 := by
  have hmem : x ∈ nums.filterMap id := List.mem_filterMap.mpr ⟨some x, hx, rfl⟩
  have : (nums.filterMap id).length ≠ 0 := by
    intro h0
    rw [List.length_eq_zero] at h0
    simp [h0] at hmem
  simpa [sortedFin, List.length_insertionSort] using this

theorem percentile_of_mem {nums : List (Option ℚ)} {x : ℚ} (hx : some x ∈ nums)
    (p : ℚ) :
    percentile nums p = some ((sortedFin nums).get
      ⟨rankIdx p (sortedFin nums).length,
        lt_of_le_of_lt (Nat.min_le_right _ _)
          (Nat.sub_lt (Nat.pos_of_ne_zero (sortedFin_ne_nil hx)) Nat.one_pos)⟩) := by
  rw [percentile_eq_percentileSpec]
  unfold percentileSpec
  rw [dif_neg (sortedFin_ne_nil hx)]

/-- C2: for every numeric sequence and level `p`, `percentile` filters out
non-finite values, sorts the remaining finite values ascending, and returns
the element at index `ceil(p/100 * n) - 1` clamped to `[0, n-1]` (that is,
it agrees with `percentileSpec`, worded from the spec); with zero finite
values it returns `none` — not zero and not an error. -/
theorem claim_c2_percentile_nearest_rank (nums : List (Option ℚ)) (p : ℚ) :
    percentile nums p = percentileSpec nums p ∧
    ((∀ x : ℚ, some x ∉ nums) → percentile nums p = none) := by
  refine ⟨percentile_eq_percentileSpec nums p, fun h => ?_⟩
  have hnil : nums.filterMap id = [] := by
    rw [List.filterMap_eq_nil_iff]
    intro a ha
    cases a with
    | none => rfl
    | some x => exact absurd ha (h x)
  unfold percentile
  simp [hnil]

theorem claim_c2_percentile_nearest_rank_witness :
    percentile [none, some 7, none] 95 = percentileSpec [none, some 7, none] 95 ∧
    percentile [(none : Option ℚ)] 50 = none := by
  refine ⟨(claim_c2_percentile_nearest_rank [none, some 7, none] 95).1, ?_⟩
  exact (claim_c2_percentile_nearest_rank [none] 50).2 (by intro x hx; simp at hx)

/-- C9: for every numeric sequence containing at least one finite value,
the percentile function is monotone in the level: its p50 is at most its
p95, which is at most its p99. -/
theorem claim_c9_percentile_levels_monotone (nums : List (Option ℚ))
    (h : ∃ x : ℚ, some x ∈ nums) :
    ∃ a b c : ℚ, percentile nums 50 = some a ∧ percentile nums 95 = some b ∧
      percentile nums 99 = some c ∧ a ≤ b ∧ b ≤ c := by
  obtain ⟨x, hx⟩ := h
  refine ⟨_, _, _, percentile_of_mem hx 50, percentile_of_mem hx 95,
    percentile_of_mem hx 99, ?_, ?_⟩
  · exact (sortedFin_sorted nums).rel_get_of_le (rankIdx_mono (by norm_num) _)
  · exact (sortedFin_sorted nums).rel_get_of_le (rankIdx_mono (by norm_num) _)

theorem claim_c9_percentile_levels_monotone_witness :
    ∃ a b c : ℚ, percentile [some 4, none, some 2] 50 = some a ∧
      percentile [some 4, none, some 2] 95 = some b ∧
      percentile [some 4, none, some 2] 99 = some c ∧ a ≤ b ∧ b ≤ c :=
  claim_c9_percentile_levels_monotone [some 4, none, some 2] ⟨4, by simp⟩

theorem percentile_replicate (n : ℕ) (c : ℚ) (p : ℚ) (hn : n ≠ 0) :
    percentile (List.replicate n (some c)) p = some c := by
  have hfm : (List.replicate n (some c)).filterMap id = List.replicate n c := by
    induction n with
    | zero => simp
    | succ m ih => simp [List.replicate_succ, List.filterMap_cons, ih]
  have hsorted : (List.replicate n c).Sorted (· ≤ ·) :=
    List.pairwise_replicate.mpr (Or.inr (le_refl c))
  have hsort : (List.replicate n c).insertionSort (· ≤ ·) = List.replicate n c :=
    List.eq_of_perm_of_sorted (List.perm_insertionSort _ _)
      (List.sorted_insertionSort _ _) hsorted
  unfold percentile
  simp only [hfm, hsort, List.length_replicate]
  rw [if_neg hn]
  have hidx : (min (max (⌈p / 100 * ((n : ℤ) : ℚ)⌉ - 1) 0) ((n : ℤ) - 1)).toNat < n := by
    omega
  rw [List.getElem?_eq_getElem (by simpa using hidx)]
  simp [List.getElem_replicate]

theorem percentile_singleton (c : ℚ) (p : ℚ) : percentile [some c] p = some c := by
  simpa using percentile_replicate 1 c p one_ne_zero

/-- C8 counterexample: a non-empty event list whose `total` values all equal
the finite constant `0` makes `tailAmp` return `null` (the JS expression
`p50 && p99` is falsy at `0`), not `1` as the claim states. -/
theorem claim_c8_counterexample :
    (∀ e ∈ [{ mkEvent "v" with total := some (0 : ℚ) }], e.total = some 0) ∧
    ([{ mkEvent "v" with total := some (0 : ℚ) }] : List Event) ≠ [] ∧
    tailAmp [{ mkEvent "v" with total := some (0 : ℚ) }] ≠ some 1 := by
  refine ⟨by simp, by simp, ?_⟩
  have h0 : tailAmp [{ mkEvent "v" with total := some (0 : ℚ) }] = none := by
    unfold tailAmp
    dsimp only [mkEvent]
    simp [percentile_singleton]
  simp [h0]

/-- C8 (amended): for every non-empty event list whose total-latency values
all equal one and the same *nonzero* finite constant, `tailAmp` returns
exactly 1; with the constant `0` it returns `null` instead (see the
counterexample). -/
theorem claim_c8_tailamp_constant_one (xs : List Event) (c : ℚ)
    (hne : xs ≠ []) (hc : c ≠ 0) (h : ∀ e ∈ xs, e.total = some c) :
    tailAmp xs = some 1 := by
  have hmap : xs.map (·.total) = List.replicate xs.length (some c) := by
    rw [show xs.length = (xs.map (·.total)).length by simp]
    apply List.eq_replicate_length.mpr
    intro b hb
    obtain ⟨e, he, rfl⟩ := List.mem_map.mp hb
    exact h e he
  have hlen : xs.length ≠ 0 := by
    intro h0
    exact hne (List.length_eq_zero.mp h0)
  unfold tailAmp
  dsimp only
  rw [hmap, percentile_replicate _ _ _ hlen, percentile_replicate _ _ _ hlen]
  simp [hc, div_self hc]

theorem claim_c8_tailamp_constant_one_witness :
    tailAmp [{ mkEvent "v" with total := some (5 : ℚ) },
      { mkEvent "v" with total := some (5 : ℚ) }] = some 1 :=
  claim_c8_tailamp_constant_one _ 5 (by simp) (by norm_num) (by
    intro e he
    rcases List.mem_cons.mp he with rfl | he2
    · rfl
    · rcases List.mem_singleton.mp he2 with rfl
      rfl)

/-- A criterion of §4.4 in the spec's words: satisfied whenever the metric
is known and within threshold, or the metric is unknown (`none`). -/
def satisfiedOrUnknown (m : Option ℚ) (P : ℚ → Prop) : Prop :=
  ∀ x, m = some x → P x

/-- The tail-amplification ratio vendor/baseline named by the claim:
unknown when either tail amplification is unknown. -/
def specTailRatio (tailDirect tailProxy : Option ℚ) : Option ℚ :=
  match tailDirect, tailProxy with
  | some d, some p => some (p / d)
  | _, _ => none

theorem optCheck_le_iff (o : Option ℚ) (t : ℚ) :
    (optCheck o (fun x => decide (x ≤ t)) = true) ↔ satisfiedOrUnknown o (· ≤ t) := by
  cases o <;> simp [optCheck, satisfiedOrUnknown]

theorem optCheck_ge_iff (o : Option ℚ) (t : ℚ) :
    (optCheck o (fun x => decide (x ≥ t)) = true) ↔ satisfiedOrUnknown o (· ≥ t) := by
  cases o <;> simp [optCheck, satisfiedOrUnknown]

theorem tail_criterion_iff (d p : Option ℚ) :
    (optCheck (tailRatioCode d p) (fun x => decide (x ≤ 6/5)) = true) ↔
      satisfiedOrUnknown (specTailRatio d p) (· ≤ 6/5) := by
  rcases d with _ | d0 <;> rcases p with _ | p0
  · simp [tailRatioCode, optCheck, specTailRatio, satisfiedOrUnknown]
  · simp [tailRatioCode, optCheck, specTailRatio, satisfiedOrUnknown]
  · simp [tailRatioCode, optCheck, specTailRatio, satisfiedOrUnknown]
  · by_cases h : d0 ≠ 0 ∧ p0 ≠ 0
    · simp [tailRatioCode, optCheck, specTailRatio, satisfiedOrUnknown, h]
    · rcases not_and_or.mp h with h0 | h0
      · rw [not_ne_iff] at h0
        subst h0
        simp [tailRatioCode, optCheck, specTailRatio, satisfiedOrUnknown, div_zero]
        norm_num
      · rw [not_ne_iff] at h0
        subst h0
        simp [tailRatioCode, optCheck, specTailRatio, satisfiedOrUnknown, zero_div]
        norm_num

/-- C1: `decidePassFail` returns `pass = true` exactly when each of the six
criteria (p95 ratio ≤ 1.3, success rate ≥ 0.98, captcha rate ≤ 0.01,
sticky p50 ≥ 10, tail-amplification ratio vendor/baseline ≤ 1.2, top-K
Jaccard ≥ 0.9) is numerically satisfied or its underlying metric is
unknown; in particular, with every one of the six metrics unknown the
verdict is PASS. -/
theorem claim_c1_decide_pass_iff (m : DecideMetrics) (c s : Option ℚ) :
    ((decidePassFail m c s).pass = true ↔
      (satisfiedOrUnknown m.overheadP95RatioToBaseline (· ≤ 13/10) ∧
       satisfiedOrUnknown m.successRate (· ≥ 49/50) ∧
       satisfiedOrUnknown m.captchaRate (· ≤ 1/100) ∧
       satisfiedOrUnknown s (· ≥ 10) ∧
       satisfiedOrUnknown (specTailRatio m.tailAmpDirect m.tailAmpProxy) (· ≤ 6/5) ∧
       satisfiedOrUnknown c (· ≥ 9/10))) ∧
    (decidePassFail ⟨none, none, none, none, none⟩ none none).pass = true := by
  constructor
  · show (optCheck m.overheadP95RatioToBaseline (fun x => decide (x ≤ 13/10)) &&
        optCheck m.successRate (fun x => decide (x ≥ 49/50)) &&
        optCheck m.captchaRate (fun x => decide (x ≤ 1/100)) &&
        optCheck s (fun x => decide (x ≥ 10)) &&
        optCheck (tailRatioCode m.tailAmpDirect m.tailAmpProxy)
          (fun x => decide (x ≤ 6/5)) &&
        optCheck c (fun x => decide (x ≥ 9/10))) = true ↔ _
    simp only [Bool.and_eq_true]
    rw [optCheck_le_iff, optCheck_ge_iff, optCheck_le_iff, optCheck_ge_iff,
      optCheck_ge_iff, tail_criterion_iff]
    tauto
  · rfl

theorem claim_c1_decide_pass_iff_witness :
    (decidePassFail ⟨none, none, none, none, none⟩ none none).pass = true :=
  (claim_c1_decide_pass_iff ⟨none, none, none, none, none⟩ none none).2

/-- C4 counterexample: both sides have a successful event, every pre-origin
stage timing (dns, connect, tls) is absent from every event, yet the
pre-origin stage overhead is computed as `0` rather than "unknown" — the
absent stage p95s are substituted by `0` in the pre-origin sums. -/
theorem claim_c4_counterexample :
    ({ mkEvent "direct" with total := some 100 } : Event).dns = none ∧
    ({ mkEvent "direct" with total := some 100 } : Event).connect = none ∧
    ({ mkEvent "direct" with total := some 100 } : Event).tls = none ∧
    ({ mkEvent "proxy" with total := some 120 } : Event).dns = none ∧
    ({ mkEvent "proxy" with total := some 120 } : Event).connect = none ∧
    ({ mkEvent "proxy" with total := some 120 } : Event).tls = none ∧
    (stageOverheads [{ mkEvent "direct" with total := some 100 }]
      [{ mkEvent "proxy" with total := some 120 }]).preOriginOverheadMs = some 0 := by
  refine ⟨rfl, rfl, rfl, rfl, rfl, rfl, ?_⟩
  unfold stageOverheads
  dsimp only [mkEvent, pickSuccesses]
  norm_num [pstat, percentile]

/-- C4 (amended): when either side has zero successful events, both overhead
values and every proxy-side stage p95 are unknown (no overhead is computed);
when both sides have successes, the TTFB overhead is unknown whenever either
side's TTFB p95 is unknown, but the pre-origin overhead is always computed,
substituting `0` for each absent stage p95. -/
theorem claim_c4_stage_overheads (vD vP : List Event) :
    ((pickSuccesses vD = [] ∨ pickSuccesses vP = []) →
      (stageOverheads vD vP).preOriginOverheadMs = none ∧
      (stageOverheads vD vP).ttfbOverheadMs = none ∧
      (stageOverheads vD vP).dnsP95Proxy = none ∧
      (stageOverheads vD vP).tcpP95Proxy = none ∧
      (stageOverheads vD vP).tlsP95Proxy = none ∧
      (stageOverheads vD vP).ttfbP95Proxy = none) ∧
    (pickSuccesses vD ≠ [] → pickSuccesses vP ≠ [] →
      ((pstat (pickSuccesses vP) (·.ttfb) 95 = none ∨
          pstat (pickSuccesses vD) (·.ttfb) 95 = none) →
        (stageOverheads vD vP).ttfbOverheadMs = none) ∧
      (stageOverheads vD vP).preOriginOverheadMs =
        some ((pstat (pickSuccesses vP) (·.dns) 95).getD 0 +
              (pstat (pickSuccesses vP) (·.connect) 95).getD 0 +
              (pstat (pickSuccesses vP) (·.tls) 95).getD 0 -
              ((pstat (pickSuccesses vD) (·.dns) 95).getD 0 +
               (pstat (pickSuccesses vD) (·.connect) 95).getD 0 +
               (pstat (pickSuccesses vD) (·.tls) 95).getD 0))) := by
  constructor
  · intro h
    have hcond : ¬(pickSuccesses vD).length > 0 ∨ ¬(pickSuccesses vP).length > 0 := by
      rcases h with h | h <;> [left; right] <;> simp [h]
    unfold stageOverheads
    rw [if_pos hcond]
    exact ⟨rfl, rfl, rfl, rfl, rfl, rfl⟩
  · intro hD hP
    have hcond : ¬(¬(pickSuccesses vD).length > 0 ∨ ¬(pickSuccesses vP).length > 0) := by
      push_neg
      exact ⟨List.length_pos.mpr hD, List.length_pos.mpr hP⟩
    unfold stageOverheads
    rw [if_neg hcond]
    constructor
    · intro hnone
      dsimp only
      cases hP95 : pstat (pickSuccesses vP) (·.ttfb) 95 <;>
        cases hD95 : pstat (pickSuccesses vD) (·.ttfb) 95 <;>
        simp_all
    · rfl

theorem claim_c4_stage_overheads_witness :
    (stageOverheads ([] : List Event)
        [{ mkEvent "proxy" with total := some 120 }]).preOriginOverheadMs = none ∧
    (stageOverheads ([] : List Event)
        [{ mkEvent "proxy" with total := some 120 }]).ttfbOverheadMs = none :=
  ⟨((claim_c4_stage_overheads [] [{ mkEvent "proxy" with total := some 120 }]).1
      (Or.inl rfl)).1,
   ((claim_c4_stage_overheads [] [{ mkEvent "proxy" with total := some 120 }]).1
      (Or.inl rfl)).2.1⟩

/-- C5: the worker loop re-checks the plateau deadline before every probe
iteration — it produces exactly the events of the maximal prefix of
iterations whose loop-head clock reading is strictly before the deadline
(so no probe is started at or after the deadline); every iteration of that
prefix contributes its event; and the result never depends on probe
completion times, so an iteration finishing after the deadline is neither
aborted nor dropped. -/
theorem claim_c5_worker_deadline (deadline : ℚ) (trace : List ProbeRun) :
    workerLoop deadline trace
      = (trace.takeWhile (fun r => decide (r.startClock < deadline))).map (·.event) ∧
    (∀ r ∈ trace.takeWhile (fun r => decide (r.startClock < deadline)),
      r.startClock < deadline) ∧
    (∀ g : ProbeRun → ℚ,
      workerLoop deadline (trace.map (fun r => { r with finishClock := g r }))
        = workerLoop deadline trace) := by
  refine ⟨?_, ?_, ?_⟩
  · induction trace with
    | nil => rfl
    | cons r rest ih =>
      by_cases h : r.startClock < deadline
      · simp [workerLoop, List.takeWhile_cons, h, ih]
      · simp [workerLoop, List.takeWhile_cons, h]
  · intro r hr
    simpa using List.mem_takeWhile_imp hr
  · intro g
    induction trace with
    | nil => rfl
    | cons r rest ih =>
      by_cases h : r.startClock < deadline
      · simp [workerLoop, h, ih]
      · simp [workerLoop, h]

theorem claim_c5_worker_deadline_witness :
    ({ startClock := 0, finishClock := 99, event := mkEvent "v" } : ProbeRun).startClock
      < 10 :=
  (claim_c5_worker_deadline 10
      [{ startClock := 0, finishClock := 99, event := mkEvent "v" }]).2.1
    { startClock := 0, finishClock := 99, event := mkEvent "v" }
    (by simp [List.takeWhile_cons])

/-- C6: ingestion fault tolerance.  An unparsable (or blank) streaming line
is skipped with every other line of the file still ingested; the number of
events from a streaming file equals the number of its nonblank parsable
lines; and a batch document that fails to parse contributes no events and
exactly one reported error, while the events of all other supplied files
are still ingested. -/
theorem claim_c6_ingestion_fault_tolerance
    (parseLine : String → Option Event) (l1 l2 : List String) (bad : String)
    (hbad : bad.trim = "" ∨ parseLine bad.trim = none)
    (lines : List String) (fs1 fs2 : List BenchFile) :
    unifyFromNdjsonFile parseLine (l1 ++ [bad] ++ l2)
      = unifyFromNdjsonFile parseLine l1 ++ unifyFromNdjsonFile parseLine l2 ∧
    (unifyFromNdjsonFile parseLine lines).length
      = (lines.filter (fun l => !(l.trim == "") && (parseLine l.trim).isSome)).length ∧
    (loadAllRaw parseLine (fs1 ++ [.results none] ++ fs2)).1
      = (loadAllRaw parseLine (fs1 ++ fs2)).1 ∧
    (loadAllRaw parseLine (fs1 ++ [.results none] ++ fs2)).2
      = (loadAllRaw parseLine (fs1 ++ fs2)).2 + 1 := by
  refine ⟨?_, ?_, ?_⟩
  case refine_3 =>
    induction fs1 with
    | nil => simp [loadAllRaw]
    | cons f fs ih =>
      obtain ⟨ih1, ih2⟩ := ih
      simp only [List.append_assoc, List.singleton_append] at ih1 ih2
      cases f with
      | results o =>
        cases o with
        | none => simp [loadAllRaw, ih1, ih2]
        | some evs => simp [loadAllRaw, ih1, ih2]
      | ndjson ls => simp [loadAllRaw, ih1, ih2]
  · unfold unifyFromNdjsonFile
    rw [List.filterMap_append, List.filterMap_append]
    rcases hbad with h | h <;> simp [h]
  · induction lines with
    | nil => rfl
    | cons l ls ih =>
      by_cases htrim : l.trim = ""
      · simp [unifyFromNdjsonFile, List.filterMap_cons, List.filter_cons, htrim] at ih ⊢
        exact ih
      · cases hp : parseLine l.trim with
        | none =>
          simp [unifyFromNdjsonFile, List.filterMap_cons, List.filter_cons, htrim, hp]
            at ih ⊢
          exact ih
        | some e =>
          simp [unifyFromNdjsonFile, List.filterMap_cons, List.filter_cons, htrim, hp]
            at ih ⊢
          exact ih

theorem claim_c6_ingestion_fault_tolerance_witness :
    (loadAllRaw (fun _ => none) ([] ++ [BenchFile.results none] ++ [])).2
      = (loadAllRaw (fun _ => none) ([] ++ [])).2 + 1 :=
  (claim_c6_ingestion_fault_tolerance (fun _ => none) [] [] ""
    (Or.inr rfl) [] [] []).2.2.2

/-- Two-level lookup in the vendor-by-query table: `byVQ[v]?.[q]`. -/
def lookupVQ (m : List (String × List (String × Event))) (v q : String) :
    Option Event :=
  jsGet ((jsGet m v).getD []) q

/-- The last event in list order of vendor `v` carrying the truthy query
`q` — the event the aggregator's overwrite semantics keeps. -/
def lastFor (arr : List Event) (v q : String) : Option Event :=
  arr.foldl (fun acc e =>
    if e.vendor = v ∧ e.query = some q ∧ q ≠ "" then some e else acc) none

theorem jsGet_jsSet_self {α : Type} (m : List (String × α)) (k : String) (x : α) :
    jsGet (jsSet m k x) k = some x := by
  induction m with
  | nil => simp [jsSet, jsGet]
  | cons p rest ih =>
    by_cases h : p.1 = k
    · simp [jsSet, jsGet, h]
    · simp [jsSet, jsGet, h, ih]

theorem jsGet_jsSet_ne {α : Type} (m : List (String × α)) (k k' : String) (x : α)
    (h : k' ≠ k) : jsGet (jsSet m k x) k' = jsGet m k' := by
  induction m with
  | nil => simp [jsSet, jsGet, fun hh => h hh.symm ∘ Eq.symm, Ne.symm h]
  | cons p rest ih =>
    by_cases hp : p.1 = k
    · subst hp
      simp [jsSet, jsGet, Ne.symm h]
    · simp only [jsSet, jsGet, if_neg hp]
      by_cases hp' : p.1 = k'
      · simp [jsGet, hp']
      · simp [jsGet, hp', ih]

theorem lookupVQ_insert (m : List (String × List (String × Event))) (e : Event)
    (v q : String) :
    lookupVQ (byVQinsert m e) v q =
      if e.vendor = v ∧ e.query = some q ∧ q ≠ "" then some e
      else lookupVQ m v q := by
  unfold byVQinsert
  cases hq : e.query with
  | none => simp
  | some qe =>
    dsimp only
    by_cases hqe : qe = ""
    · subst hqe
      rw [if_pos rfl]
      rw [if_neg]
      rintro ⟨-, hq2, hq3⟩
      rw [Option.some_inj] at hq2
      exact hq3 hq2.symm
    · rw [if_neg hqe]
      by_cases hv : e.vendor = v
      · subst hv
        unfold lookupVQ
        rw [jsGet_jsSet_self]
        by_cases hqq : qe = q
        · subst hqq
          simp [jsGet_jsSet_self, hqe]
        · rw [Option.getD_some, jsGet_jsSet_ne _ _ _ _ (Ne.symm hqq)]
          rw [if_neg]
          rintro ⟨-, hq2, -⟩
          exact hqq (Option.some_inj.mp hq2)
      · unfold lookupVQ
        rw [jsGet_jsSet_ne _ _ _ _ (Ne.symm hv)]
        rw [if_neg]
        rintro ⟨hv2, -, -⟩
        exact hv hv2

theorem lastFor_foldl_char (v q : String) (arr : List Event) (acc : Option Event) :
    arr.foldl (fun a e =>
        if e.vendor = v ∧ e.query = some q ∧ q ≠ "" then some e else a) acc
      = match lastFor arr v q with
        | some e => some e
        | none => acc := by
  induction arr generalizing acc with
  | nil => simp [lastFor]
  | cons e rest ih =>
    show rest.foldl _ (if e.vendor = v ∧ e.query = some q ∧ q ≠ "" then some e else acc)
      = _
    rw [ih]
    have hcons : lastFor (e :: rest) v q
        = match lastFor rest v q with
          | some e' => some e'
          | none => if e.vendor = v ∧ e.query = some q ∧ q ≠ "" then some e else none := by
      show rest.foldl _ (if e.vendor = v ∧ e.query = some q ∧ q ≠ "" then some e else none)
        = _
      rw [ih]
    rw [hcons]
    cases lastFor rest v q with
    | some e' => rfl
    | none =>
      by_cases h : e.vendor = v ∧ e.query = some q ∧ q ≠ "" <;> simp [h]

theorem lastFor_cons (e : Event) (rest : List Event) (v q : String) :
    lastFor (e :: rest) v q
      = match lastFor rest v q with
        | some e' => some e'
        | none => if e.vendor = v ∧ e.query = some q ∧ q ≠ "" then some e else none := by
  show rest.foldl _ (if e.vendor = v ∧ e.query = some q ∧ q ≠ "" then some e else none) = _
  rw [lastFor_foldl_char]

/-- The table access the aggregator performs and the last-event semantics
of its overwrite agree. -/
theorem lookupVQ_buildByVQ (arr : List Event) (v q : String) :
    lookupVQ (buildByVQ arr) v q = lastFor arr v q := by
  suffices h : ∀ m, lookupVQ (arr.foldl byVQinsert m) v q
      = match lastFor arr v q with
        | some e => some e
        | none => lookupVQ m v q by
    have h0 := h []
    unfold buildByVQ
    rw [h0]
    cases lastFor arr v q <;> simp [lookupVQ, jsGet]
  intro m
  induction arr generalizing m with
  | nil => simp [lastFor]
  | cons e rest ih =>
    simp only [List.foldl_cons]
    rw [ih (byVQinsert m e), lookupVQ_insert, lastFor_cons]
    cases lastFor rest v q with
    | some e' => rfl
    | none =>
      by_cases h : e.vendor = v ∧ e.query = some q ∧ q ≠ "" <;> simp [h]

theorem lastFor_some_spec (arr : List Event) (v q : String) (e : Event)
    (he : lastFor arr v q = some e) :
    e ∈ arr ∧ e.vendor = v ∧ e.query = some q ∧ q ≠ "" := by
  induction arr with
  | nil => simp [lastFor] at he
  | cons a rest ih =>
    rw [lastFor_cons] at he
    cases hrest : lastFor rest v q with
    | some e' =>
      rw [hrest] at he
      obtain rfl : e' = e := Option.some_inj.mp he
      obtain ⟨h1, h2⟩ := ih hrest
      exact ⟨List.mem_cons_of_mem a h1, h2⟩
    | none =>
      rw [hrest] at he
      by_cases h : a.vendor = v ∧ a.query = some q ∧ q ≠ ""
      · rw [if_pos h] at he
        obtain rfl : a = e := Option.some_inj.mp he
        exact ⟨List.mem_cons_self a rest, h⟩
      · rw [if_neg h] at he
        simp at he

theorem lastFor_none_spec (arr : List Event) (v q : String)
    (hn : lastFor arr v q = none) :
    ∀ e ∈ arr, ¬(e.vendor = v ∧ e.query = some q ∧ q ≠ "") := by
  induction arr with
  | nil => simp
  | cons a rest ih =>
    rw [lastFor_cons] at hn
    cases hrest : lastFor rest v q with
    | some e' =>
      rw [hrest] at hn
      simp at hn
    | none =>
      rw [hrest] at hn
      by_cases h : a.vendor = v ∧ a.query = some q ∧ q ≠ ""
      · rw [if_pos h] at hn
        simp at hn
      · intro e he
        rcases List.mem_cons.mp he with rfl | hmem
        · exact h
        · exact ih hrest e hmem

theorem lastFor_ts_max (arr : List Event) (v q : String)
    (hsort : arr.Pairwise (fun a b => a.ts ≤ b.ts)) (e : Event)
    (he : lastFor arr v q = some e) :
    ∀ e' ∈ arr, e'.vendor = v → e'.query = some q → e'.ts ≤ e.ts := by
  induction arr with
  | nil => simp [lastFor] at he
  | cons a rest ih =>
    rw [List.pairwise_cons] at hsort
    obtain ⟨ha, hsort_rest⟩ := hsort
    rw [lastFor_cons] at he
    cases hrest : lastFor rest v q with
    | some e0 =>
      rw [hrest] at he
      obtain rfl : e0 = e := Option.some_inj.mp he
      intro e' he' hv hq'
      rcases List.mem_cons.mp he' with rfl | hmem
      · exact ha e0 ((lastFor_some_spec rest v q e0 hrest).1)
      · exact ih hsort_rest hrest e' hmem hv hq'
    | none =>
      rw [hrest] at he
      by_cases h : a.vendor = v ∧ a.query = some q ∧ q ≠ ""
      · rw [if_pos h] at he
        obtain rfl : a = e := Option.some_inj.mp he
        intro e' he' hv hq'
        rcases List.mem_cons.mp he' with rfl | hmem
        · exact le_refl _
        · exact absurd ⟨hv, hq', h.2.2⟩ (lastFor_none_spec rest v q hrest e' hmem)
      · rw [if_neg h] at he
        simp at he

theorem jsGet_isSome_iff {α : Type} (m : List (String × α)) (k : String) :
    (jsGet m k).isSome ↔ k ∈ m.map Prod.fst := by
  induction m with
  | nil => simp [jsGet]
  | cons p rest ih =>
    by_cases h : p.1 = k
    · simp [jsGet, h]
    · simp [jsGet, h, ih, Ne.symm h]

/-- A query is among a vendor's shared queries exactly when both that
vendor and the baseline recorded an event for it. -/
theorem mem_commonQs_iff (arr : List Event) (bV v q : String) :
    q ∈ commonQs (buildByVQ arr) bV v ↔
      (lastFor arr v q).isSome ∧ (lastFor arr bV q).isSome := by
  unfold commonQs
  rw [List.mem_filter]
  have hv : q ∈ ((jsGet (buildByVQ arr) v).getD []).map Prod.fst ↔
      (lastFor arr v q).isSome := by
    rw [← jsGet_isSome_iff]
    rw [show jsGet ((jsGet (buildByVQ arr) v).getD []) q = lastFor arr v q from
      lookupVQ_buildByVQ arr v q]
  have hb : (jsGet ((jsGet (buildByVQ arr) bV).getD []) q).isSome ↔
      (lastFor arr bV q).isSome := by
    rw [show jsGet ((jsGet (buildByVQ arr) bV).getD []) q = lastFor arr bV q from
      lookupVQ_buildByVQ arr bV q]
  rw [hv]
  constructor
  · rintro ⟨h1, h2⟩
    exact ⟨h1, hb.mp (by simpa using h2)⟩
  · rintro ⟨h1, h2⟩
    exact ⟨h1, by simpa using hb.mpr h2⟩

theorem jsGet_map_self {α : Type} (l : List String) (f : String → α) (v : String)
    (hv : v ∈ l) : jsGet (l.map (fun x => (x, f x))) v = some (f v) := by
  induction l with
  | nil => simp at hv
  | cons x rest ih =>
    by_cases h : x = v
    · subst h
      simp [jsGet]
    · rcases List.mem_cons.mp hv with rfl | hmem
      · exact absurd rfl h
      · simp [jsGet, h, ih hmem]

theorem length_filterMap_eq_length_filter {α β : Type} (l : List α)
    (f : α → Option β) :
    (l.filterMap f).length = (l.filter (fun a => (f a).isSome)).length := by
  induction l with
  | nil => rfl
  | cons a rest ih =>
    cases h : f a with
    | none => simp [List.filterMap_cons, List.filter_cons, h, ih]
    | some b => simp [List.filterMap_cons, List.filter_cons, h, ih]

/-- The output entry `correctnessJaccard` stores for a non-baseline vendor
that occurs among the table's vendors. -/
theorem corrEntry_eq (arr : List Event) (b : String) (k : Nat) (v : String)
    (hv : v ∈ (buildByVQ arr).map Prod.fst) (hne : v ≠ resolvedBaseline arr b) :
    jsGet (correctnessJaccard arr b k).vendors v =
      some { avg := if (corrScoresFor arr (resolvedBaseline arr b) v k).length ≠ 0
                    then some ((corrScoresFor arr (resolvedBaseline arr b) v k).sum /
                               (corrScoresFor arr (resolvedBaseline arr b) v k).length)
                    else none
             count := (corrScoresFor arr (resolvedBaseline arr b) v k).length } := by
  unfold correctnessJaccard
  dsimp only
  rw [jsGet_jsSet_ne _ _ _ _ hne]
  have hvf : v ∈ ((buildByVQ arr).map Prod.fst).filter (· ≠ resolvedBaseline arr b) :=
    List.mem_filter.mpr ⟨hv, by simpa using hne⟩
  exact jsGet_map_self _ _ v hvf

/-- Spec-side definition, following C3's wording: the success-restricted
correctness average — the shared queries are those present in both the
vendor's and the baseline's *successful* event sets, the most recent
successful event per (vendor, query) is used, and the average is unknown
when no score exists. -/
def specSuccessCorrAvg (arr : List Event) (bV v : String) (k : Nat) : Option ℚ :=
  let succs := arr.filter (·.ok)
  let vendorQs := (succs.filter (fun e => e.vendor = v)).filterMap (·.query)
  let shared := vendorQs.dedup.filter
    (fun q => (succs.filter (fun e => e.vendor = bV ∧ e.query = some q)) ≠ [])
  let scores := shared.filterMap (fun q =>
    match lastFor succs bV q, lastFor succs v q with
    | some eb, some ev => jaccard eb.topk ev.topk k
    | _, _ => none)
  if scores.length ≠ 0 then some (scores.sum / (scores.length : ℚ)) else none

/-- Baseline-side event of the C3 counterexample: successful, query `"q"`. -/
def c3BaseEv : Event :=
  { mkEvent "direct" with ts := 1, query := some "q", topk := ["a"] }

/-- Vendor-side event of the C3 counterexample: FAILED (`ok = false`),
query `"q"`. -/
def c3VendEv : Event :=
  { mkEvent "v" with ok := false, ts := 2, query := some "q", topk := ["b"] }

/-- C3 counterexample: the aggregator does not restrict correctness scoring
to successful events.  With one successful baseline event and one *failed*
vendor event for the same query, the success-restricted average of the
claim is unknown, yet `correctnessJaccard` scores the pair and reports an
average of `0` over one counted pair. -/
theorem claim_c3_counterexample :
    c3VendEv.ok = false ∧
    specSuccessCorrAvg [c3BaseEv, c3VendEv] "direct" "v" 10 = none ∧
    jsGet (correctnessJaccard [c3BaseEv, c3VendEv] "direct" 10).vendors "v"
      = some { avg := some 0, count := 1 } := by
  refine ⟨rfl, by decide, ?_⟩
  rw [corrEntry_eq [c3BaseEv, c3VendEv] "direct" 10 "v" (by decide) (by decide)]
  rw [show resolvedBaseline [c3BaseEv, c3VendEv] "direct" = "direct" from by decide]
  rw [show corrScoresFor [c3BaseEv, c3VendEv] "direct" "v" 10
      = [((0:ℕ) : ℚ) / ((2:ℕ) : ℚ)] from rfl]
  norm_num

/-- C3 (amended): correctness scoring uses, per (vendor, query), the last
event in list order with a truthy query — under the timestamp sort that
`loadAll` applies, an event of maximal timestamp; a query is shared exactly
when both the vendor and the baseline recorded such an event (successful or
not); and a vendor sharing no query with the baseline gets an unknown
average (not zero) and a count of zero. -/
theorem claim_c3_correctness_scoring (arr : List Event) (b v q : String) (k : Nat) :
    lookupVQ (buildByVQ arr) v q = lastFor arr v q ∧
    (arr.Pairwise (fun a e => a.ts ≤ e.ts) →
      ∀ e, lastFor arr v q = some e →
        ∀ e' ∈ arr, e'.vendor = v → e'.query = some q → e'.ts ≤ e.ts) ∧
    (q ∈ commonQs (buildByVQ arr) b v ↔
      (lastFor arr v q).isSome ∧ (lastFor arr b q).isSome) ∧
    (v ∈ (buildByVQ arr).map Prod.fst → v ≠ resolvedBaseline arr b →
      (∀ q', ¬((lastFor arr v q').isSome ∧
               (lastFor arr (resolvedBaseline arr b) q').isSome)) →
      jsGet (correctnessJaccard arr b k).vendors v
        = some { avg := none, count := 0 }) := by
  refine ⟨lookupVQ_buildByVQ arr v q, ?_, mem_commonQs_iff arr b v q, ?_⟩
  · intro hsort e he
    exact lastFor_ts_max arr v q hsort e he
  · intro hv hne hnone
    rw [corrEntry_eq arr b k v hv hne]
    have hcq : commonQs (buildByVQ arr) (resolvedBaseline arr b) v = [] := by
      rw [List.eq_nil_iff_forall_not_mem]
      intro q' hq'
      exact hnone q' ((mem_commonQs_iff arr (resolvedBaseline arr b) v q').mp hq')
    simp [corrScoresFor, hcq]

/-- First event of the C3 witness: vendor `"v"`, query `"q1"`, earlier. -/
def c3wEv1 : Event := { mkEvent "v" with ts := 1, query := some "q1", topk := ["a"] }

/-- Second event of the C3 witness: vendor `"v"`, query `"q1"`, later. -/
def c3wEv2 : Event := { mkEvent "v" with ts := 2, query := some "q1", topk := ["b"] }

theorem claim_c3_correctness_scoring_witness : c3wEv1.ts ≤ c3wEv2.ts :=
  (claim_c3_correctness_scoring [c3wEv1, c3wEv2] "direct" "v" "q1" 10).2.1
    (by decide) c3wEv2 (by decide) c3wEv1 (by decide) (by decide) (by decide)

/-- C10: a shared query whose two first-K lists are both empty gets a `null`
Jaccard score (empty union), and `null` scores are excluded from both the
average's score list and the pair count (the count equals the number of
shared queries with a defined score); a pair with exactly one empty first-K
list scores `0` and is counted. -/
theorem claim_c10_empty_topk_pairs (a b : List String) (k : Nat)
    (arr : List Event) (bV v : String) :
    (a.take k = [] → b.take k = [] → jaccard a b k = none) ∧
    (a.take k = [] → b.take k ≠ [] → jaccard a b k = some 0) ∧
    (a.take k ≠ [] → b.take k = [] → jaccard a b k = some 0) ∧
    (corrScoresFor arr bV v k).length
      = ((commonQs (buildByVQ arr) bV v).filter
          (fun q => (corrScore (buildByVQ arr) bV v k q).isSome)).length := by
  refine ⟨?_, ?_, ?_, length_filterMap_eq_length_filter _ _⟩
  · intro ha hb
    unfold jaccard
    simp [ha, hb]
  · intro ha hb
    unfold jaccard
    dsimp only
    rw [ha]
    simp [List.length_eq_zero, List.dedup_eq_nil, hb]
  · intro ha hb
    unfold jaccard
    dsimp only
    rw [hb]
    simp [List.length_eq_zero, List.dedup_eq_nil, ha]

theorem claim_c10_empty_topk_pairs_witness :
    jaccard [] ["b"] 10 = some 0 ∧ jaccard [] [] 10 = none :=
  ⟨(claim_c10_empty_topk_pairs [] ["b"] 10 [] "direct" "v").2.1 rfl (by simp),
   (claim_c10_empty_topk_pairs [] [] 10 [] "direct" "v").1 rfl rfl⟩

/-- The vendor of the first event carrying a truthy query — the "first
vendor encountered" that becomes the first key of the correctness table. -/
def firstQueryVendor (arr : List Event) : Option String :=
  arr.findSome? (fun e =>
    match e.query with
    | some q => if q = "" then none else some e.vendor
    | none => none)

theorem jsSet_keysHead {α : Type} (p : String × α) (ms : List (String × α))
    (key : String) (x : α) :
    (((jsSet (p :: ms) key x).map Prod.fst).head?) = some p.1 := by
  by_cases h : p.1 = key
  · simp [jsSet, h]
  · simp [jsSet, h]

theorem keysHead_foldl (arr : List Event)
    (m : List (String × List (String × Event))) :
    ((arr.foldl byVQinsert m).map Prod.fst).head?
      = match (m.map Prod.fst).head? with
        | some kk => some kk
        | none => firstQueryVendor arr := by
  induction arr generalizing m with
  | nil => cases m <;> simp [firstQueryVendor]
  | cons e rest ih =>
    simp only [List.foldl_cons]
    rw [ih]
    cases m with
    | nil =>
      cases hq : e.query with
      | none =>
        simp [byVQinsert, hq, firstQueryVendor, List.findSome?_cons]
      | some qe =>
        by_cases hqe : qe = ""
        · subst hqe
          simp [byVQinsert, hq, firstQueryVendor, List.findSome?_cons]
        · simp [byVQinsert, hq, hqe, jsSet, firstQueryVendor, List.findSome?_cons]
    | cons p ms =>
      have hins : ((byVQinsert (p :: ms) e).map Prod.fst).head? = some p.1 := by
        unfold byVQinsert
        cases hq : e.query with
        | none => simp
        | some qe =>
          by_cases hqe : qe = ""
          · simp [hqe]
          · simp only [hqe, if_false]
            exact jsSet_keysHead p ms e.vendor _
      rw [hins]
      simp

theorem resolvedBaseline_fallback (arr : List Event) (b : String)
    (hb : b ∉ (buildByVQ arr).map Prod.fst) (hne : buildByVQ arr ≠ []) :
    some (resolvedBaseline arr b) = firstQueryVendor arr := by
  have h := keysHead_foldl arr []
  simp only [List.map_nil, List.head?_nil] at h
  unfold resolvedBaseline
  unfold buildByVQ at *
  cases harr : arr.foldl byVQinsert [] with
  | nil => exact absurd harr hne
  | cons p rest' =>
    rw [harr] at h hb
    simp only [List.map_cons, List.head?_cons] at h hb
    simp only [List.map_cons]
    rw [if_neg (by simpa using hb)]
    exact h

/-- C7 (amended): when the configured baseline name does not occur among
the ingested vendors, only the correctness computation falls back to the
first vendor encountered (the first vendor with a truthy query); the name
used for stage overhead, speed ratios and tail amplification falls back to
the literal `"direct"`, and when no vendor named `"direct"` exists either,
those baseline-relative metrics are unknown rather than computed against
the first vendor. -/
theorem claim_c7_baseline_fallback (events : List Event) (b : String) (k : Nat) :
    (b ∉ (groupByVendor events).map Prod.fst → aggDirectName events b = "direct") ∧
    (b ∉ (buildByVQ events).map Prod.fst → buildByVQ events ≠ [] →
      some ((correctnessJaccard events b k).baseline) = firstQueryVendor events) ∧
    (b ∉ (groupByVendor events).map Prod.fst →
      "direct" ∉ (groupByVendor events).map Prod.fst → ∀ vendor,
      (aggSpeeds events b vendor).overheadP95RatioToBaseline = none ∧
      (aggSpeeds events b vendor).overheadP50Ms = none ∧
      (aggSpeeds events b vendor).ttfbP95OverheadMs = none ∧
      (aggSpeeds events b vendor).tailAmpDirect = none) := by
  refine ⟨?_, ?_, ?_⟩
  · intro hb
    unfold aggDirectName
    rw [if_neg hb]
  · intro hb hne
    exact resolvedBaseline_fallback events b hb hne
  · intro hb hdir vendor
    have hname : aggDirectName events b = "direct" := by
      unfold aggDirectName
      rw [if_neg hb]
    have hvD : (jsGet (groupByVendor events) (aggDirectName events b)).getD [] = [] := by
      rw [hname]
      have : ¬ (jsGet (groupByVendor events) "direct").isSome := by
        rw [jsGet_isSome_iff]
        exact hdir
      rw [Option.not_isSome_iff_eq_none] at this
      rw [this]
      rfl
    unfold aggSpeeds
    dsimp only
    rw [hvD]
    unfold speedDeltas
    simp [pickSuccesses, pstat, percentile, tailAmp]

/-- First vendor's event for the C7 counterexample. -/
def c7aEv : Event :=
  { mkEvent "a" with total := some 100, query := some "qq", topk := ["x"], ts := 1 }

/-- Second vendor's event for the C7 counterexample. -/
def c7bEv : Event :=
  { mkEvent "b" with total := some 100, query := some "qq", topk := ["x"], ts := 2 }

/-- C7 counterexample: with vendors `"a"` and `"b"` and the default baseline
`"direct"` absent, the speed computation uses the literal name `"direct"`
(whose event list is empty), so the p95 ratio is unknown — whereas against
the first vendor `"a"` it would be `1`; only the correctness computation
falls back to the first vendor. -/
theorem claim_c7_counterexample :
    "direct" ∉ (groupByVendor [c7aEv, c7bEv]).map Prod.fst ∧
    aggDirectName [c7aEv, c7bEv] "direct" = "direct" ∧
    (aggSpeeds [c7aEv, c7bEv] "direct" "b").overheadP95RatioToBaseline = none ∧
    (speedDeltas [c7aEv] [c7bEv]).overheadP95RatioToBaseline = some 1 ∧
    (correctnessJaccard [c7aEv, c7bEv] "direct" 10).baseline = "a" := by
  refine ⟨by decide, by decide, ?_, ?_, by decide⟩
  · unfold aggSpeeds
    dsimp only
    rw [show jsGet (groupByVendor [c7aEv, c7bEv]) (aggDirectName [c7aEv, c7bEv] "direct")
        = none from by decide]
    unfold speedDeltas
    simp [pickSuccesses, pstat, percentile, tailAmp]
  · unfold speedDeltas
    dsimp only [c7aEv, c7bEv, mkEvent, pickSuccesses]
    norm_num [pstat, percentile_singleton]

theorem claim_c7_baseline_fallback_witness :
    aggDirectName [c7aEv, c7bEv] "nope" = "direct" :=
  (claim_c7_baseline_fallback [c7aEv, c7bEv] "nope" 10).1 (by decide)
